import Mathlib

/-!
A verification development for WebCore's inline line builder
(`Source/WebCore/layout/formattingContexts/inline/InlineLine.cpp`):
a shallow embedding of `Line`, `Line::Run` and `Line::TrimmableTrailingContent`,
with `InlineLayoutUnit` modelled as `ℤ`: exact arithmetic idealizing the
engine's float type. The single division site (the per-opportunity share in
justification) is integer division; the conservation theorem uses it only
under the even-divisibility proviso of the specification, where it agrees
with exact division. Helpers that live in `InlineLine.h` and the other
headers that are not part of the source tree are modelled from the
specification and carry a `Modelled from the spec:` doc comment.
-/

namespace Layout

/-- White-space handling recognized by this core (spec §6 configuration:
whiteSpace collapse, preserve or pre-wrap). `collapse` collapses whitespace;
`preserve` and `preWrap` keep spaces and tabs. -/
inductive WhiteSpaceMode
  | collapse
  | preserve
  | preWrap
deriving DecidableEq

/-- Text alignment of the root, consumed by the line-break trimming quirk
(`TextAlignMode` in the source; only the right-alignment test matters here). -/
inductive TextAlignMode
  | leftAlign
  | center
  | rightAlign
  | webkitRight
  | endAlign
  | justify
deriving DecidableEq

/-- Line::removeTrailingTrimmableContent's `isTextAlignRight` lambda:
text-align is Right, WebKitRight or End. -/
def isTextAlignRight : TextAlignMode → Bool
  | .rightAlign => true
  | .webkitRight => true
  | .endAlign => true
  | _ => false

/-- Pre-resolved style lookups consumed by the line (spec §6): white-space,
letter-spacing, word-spacing, text-combine and the width of the style's
hyphen string in the style's font. -/
structure Style where
  whiteSpace : WhiteSpaceMode
  letterSpacing : ℤ
  wordSpacing : ℤ
  textCombineHorizontal : Bool
  hyphenWidth : ℤ
deriving DecidableEq

/-- A layout box: the non-owning back-link carried by items and runs, with its
pre-resolved style and box geometry (margin-start, per spec §6 the geometry is
provided by the caller). Pointer identity of `Box&` is modelled as value
identity of this structure. -/
structure Box where
  id : ℕ
  style : Style
  marginStart : ℤ
  isReplaced : Bool
deriving DecidableEq

/-- InlineItem::Type: the tagged-variant tag of an inline item and of a run. -/
inductive ItemType
  | text
  | softLineBreak
  | hardLineBreak
  | wordBreakOpportunity
  | inlineBoxStart
  | inlineBoxEnd
  | atomicBox
deriving DecidableEq

/-- A non-text inline item: its type tag, originating box, and (for soft line
breaks) the position of the preserved newline in the text source. -/
structure InlineItem where
  ty : ItemType
  box : Box
  pos : ℕ := 0
deriving DecidableEq

/-- An inline text item: a reference to its box, a start offset and length into
the immutable text source, and the flags listed in spec §3. -/
structure InlineTextItem where
  box : Box
  start : ℕ
  length : ℕ
  isWhitespace : Bool
  isWordSeparator : Bool
  hasTrailingSoftHyphen : Bool
deriving DecidableEq

/-- Modelled from the spec: `InlineTextItem::isEmptyContent` is not in the
source tree (`InlineTextItem.h`); spec §4.1 says an item collapses to nothing
"if it is empty", i.e. its text span is empty. -/
def InlineTextItem.isEmptyContent (it : InlineTextItem) : Bool :=
  it.length == 0

/-- Modelled from the spec: `TextUtil::shouldPreserveSpacesAndTabs` (box-level,
`TextUtil.h` is not in the source tree). Per the spec §6 configuration, spaces
and tabs are preserved exactly when white-space is not `collapse`. -/
def stylePreservesSpacesAndTabs (b : Box) : Bool :=
  decide (b.style.whiteSpace ≠ WhiteSpaceMode.collapse)

/-- Modelled from the spec: `InlineTextItem::shouldPreserveSpacesAndTabs`
(`InlineTextItem.h` is not in the source tree) looks up the item's box style;
spec §3 exposes it as the item's `preserveSpacesAndTabs` flag. -/
def shouldPreserveSpacesAndTabs (it : InlineTextItem) : Bool :=
  stylePreservesSpacesAndTabs it.box

/-- Trailing-whitespace classification of a text run
(`Line::Run::TrailingWhitespace` in `InlineLine.h`). The spec §3 names
None/Collapsible/Collapsed; `notCollapsible` is additionally forced by the
source: pre-wrap runs reach `visuallyCollapsePreWrapOverflowContent` with
`hasTrailingWhitespace()` true while the source asserts
`!hasCollapsibleTrailingWhitespace()` there. -/
inductive TrailingWhitespace
  | none
  | notCollapsible
  | collapsible
  | collapsed
deriving DecidableEq

/-- Modelled from the spec: `Line::Run::trailingWhitespaceType` lives in
`InlineLine.h`, which is not in the source tree. Non-whitespace items carry no
trailing whitespace; preserved whitespace is not collapsible; a single-unit
whitespace item is collapsible; a longer whitespace item has already been
collapsed to a single logical unit (spec §3: a `Collapsed` run's text length is
the collapsed representation length, 1, never the original whitespace run
length — so `Collapsed` is exactly the multi-unit case). -/
def trailingWhitespaceTypeFor (it : InlineTextItem) : TrailingWhitespace :=
  if !it.isWhitespace then .none
  else if shouldPreserveSpacesAndTabs it then .notCollapsible
  else if it.length == 1 then .collapsible
  else .collapsed

/-- One side of an expansion behavior: expansion forbidden or allowed. -/
inductive ExpAllow
  | forbid
  | allow
deriving DecidableEq

/-- Modelled from the spec: `ExpansionBehavior` (`TextFlags.h`, not in the
source tree) as a pair of per-side legality flags, per spec §4.4 "per-run
expansion legality flags (left/right expansion allowed)". The source's bitmask
operations map to updating one component while keeping the other. -/
structure ExpansionBehavior where
  left : ExpAllow
  right : ExpAllow
deriving DecidableEq

/-- Modelled from the spec: `DefaultExpansion` (`TextFlags.h`): ordinary text
rendering allows expansion after a character but not before the first one. -/
def DefaultExpansion : ExpansionBehavior :=
  { left := .forbid, right := .allow }

/-- Line::Run::TextContent: the run's span into the source text. -/
structure TextContent where
  start : ℕ
  length : ℕ
deriving DecidableEq

/-- Line::Run: one placed run (§3 of the spec, `Line::Run` in the source). -/
structure Run where
  ty : ItemType
  box : Box
  logicalLeft : ℤ
  logicalWidth : ℤ
  trailingWhitespaceType : TrailingWhitespace := .none
  trailingWhitespaceWidth : ℤ := 0
  textContent : Option TextContent := Option.none
  expansionBehavior : ExpansionBehavior := DefaultExpansion
  expansionWidth : ℤ := 0
  hyphenWidth : Option ℤ := Option.none
deriving DecidableEq

namespace Run

/-- Run type predicate: text run. -/
def isText (r : Run) : Bool := decide (r.ty = ItemType.text)

/-- Run type predicate: atomic inline-level box run. -/
def isBox (r : Run) : Bool := decide (r.ty = ItemType.atomicBox)

/-- Run type predicate: soft or hard line break run. -/
def isLineBreak (r : Run) : Bool :=
  decide (r.ty = ItemType.softLineBreak ∨ r.ty = ItemType.hardLineBreak)

/-- Run type predicate: inline box start marker. -/
def isInlineBoxStart (r : Run) : Bool := decide (r.ty = ItemType.inlineBoxStart)

/-- Run type predicate: inline box end marker. -/
def isInlineBoxEnd (r : Run) : Bool := decide (r.ty = ItemType.inlineBoxEnd)

/-- Run type predicate: word break opportunity marker. -/
def isWordBreakOpportunity (r : Run) : Bool :=
  decide (r.ty = ItemType.wordBreakOpportunity)

/-- The run's style, looked up through its layout box back-link. -/
def style (r : Run) : Style := r.box.style

/-- Run has any trailing whitespace recorded. -/
def hasTrailingWhitespace (r : Run) : Bool :=
  decide (r.trailingWhitespaceType ≠ TrailingWhitespace.none)

/-- Run's trailing whitespace participates in collapsing (collapsible or
already collapsed; preserved whitespace does not). -/
def hasCollapsibleTrailingWhitespace (r : Run) : Bool :=
  decide (r.trailingWhitespaceType = TrailingWhitespace.collapsible ∨
          r.trailingWhitespaceType = TrailingWhitespace.collapsed)

/-- Run's trailing whitespace has been collapsed from a longer whitespace run. -/
def hasCollapsedTrailingWhitespace (r : Run) : Bool :=
  decide (r.trailingWhitespaceType = TrailingWhitespace.collapsed)

/-- Modelled from the spec: run geometry helper (`InlineLine.h`): the run's
logical right edge. -/
def logicalRight (r : Run) : ℤ := r.logicalLeft + r.logicalWidth

/-- Modelled from the spec: run geometry helper (`InlineLine.h`): move the run
horizontally by a delta. -/
def moveHorizontally (r : Run) (d : ℤ) : Run :=
  { r with logicalLeft := r.logicalLeft + d }

/-- Modelled from the spec: run geometry helper (`InlineLine.h`): shrink the
run's logical width by the given amount. -/
def shrinkHorizontally (r : Run) (d : ℤ) : Run :=
  { r with logicalWidth := r.logicalWidth - d }

/-- Modelled from the spec: `Line::Run::setExpansion` (`InlineLine.h`) stores
the computed justification state on the run. -/
def setExpansion (r : Run) (b : ExpansionBehavior) (w : ℤ) : Run :=
  { r with expansionBehavior := b, expansionWidth := w }

/-- Modelled from the spec: `Line::Run::setNeedsHyphen` (`InlineLine.h`)
attaches the trailing hyphen width to the run (spec §4.5 "attach the hyphen
width to it"). -/
def setNeedsHyphen (r : Run) (hw : ℤ) : Run :=
  { r with hyphenWidth := some hw }

/-- Line::Run constructor from a generic inline item (source lines 448–454). -/
def ofItem (it : InlineItem) (left w : ℤ) : Run :=
  { ty := it.ty, box := it.box, logicalLeft := left, logicalWidth := w }

/-- Line::Run constructor from a soft line break item (source lines 456–462):
a zero-advance text-like run carrying a single logical text unit. -/
def ofSoftBreak (it : InlineItem) (left : ℤ) : Run :=
  { ty := it.ty, box := it.box, logicalLeft := left, logicalWidth := 0,
    textContent := some { start := it.pos, length := 1 } }

/-- Line::Run constructor from an inline text item (source lines 464–473). -/
def ofTextItem (it : InlineTextItem) (left w : ℤ) : Run :=
  let T := trailingWhitespaceTypeFor it
  let len := if T = TrailingWhitespace.collapsed then 1 else it.length
  { ty := ItemType.text, box := it.box, logicalLeft := left, logicalWidth := w,
    trailingWhitespaceType := T,
    trailingWhitespaceWidth := if T ≠ TrailingWhitespace.none then w else 0,
    textContent := some ⟨it.start, len⟩ }

/-- Line::Run::expand (source lines 475–491): coalesce a further text item of
the same box into this run. -/
def expand (r : Run) (it : InlineTextItem) (w : ℤ) : Run :=
  let T := trailingWhitespaceTypeFor it
  if T = TrailingWhitespace.none then
    { r with logicalWidth := r.logicalWidth + w,
             trailingWhitespaceType := T,
             trailingWhitespaceWidth := 0,
             textContent := r.textContent.map fun tc =>
               { tc with length := tc.length + it.length } }
  else
    { r with logicalWidth := r.logicalWidth + w,
             trailingWhitespaceType := T,
             trailingWhitespaceWidth := r.trailingWhitespaceWidth + w,
             textContent := r.textContent.map fun tc =>
               { tc with length := tc.length +
                   (if T = TrailingWhitespace.collapsed then 1 else it.length) } }

/-- Line::Run::hasTrailingLetterSpacing (source lines 493–496). -/
def hasTrailingLetterSpacing (r : Run) : Bool :=
  !r.hasTrailingWhitespace && decide (0 < r.style.letterSpacing)

/-- Line::Run::trailingLetterSpacing (source lines 498–503). -/
def trailingLetterSpacing (r : Run) : ℤ :=
  if r.hasTrailingLetterSpacing then r.style.letterSpacing else 0

/-- Line::Run::removeTrailingLetterSpacing (source lines 505–510). -/
def removeTrailingLetterSpacing (r : Run) : Run :=
  r.shrinkHorizontally r.trailingLetterSpacing

/-- Line::Run::visuallyCollapseTrailingWhitespace (source lines 522–534):
trim at most the requested amount of trailing whitespace width, resetting the
trailing whitespace type when its width reaches zero; returns the updated run
and the trimmed width. -/
def visuallyCollapseTrailingWhitespace (r : Run) (ask : ℤ) : Run × ℤ :=
  let trimmed := min ask r.trailingWhitespaceWidth
  let w' := r.trailingWhitespaceWidth - trimmed
  ({ r with logicalWidth := r.logicalWidth - trimmed,
            trailingWhitespaceWidth := w',
            trailingWhitespaceType :=
              if w' = 0 then TrailingWhitespace.none else r.trailingWhitespaceType },
   trimmed)

/-- Line::Run::removeTrailingWhitespace (source lines 512–520): drop the single
logical unit of trailing trimmable whitespace and collapse its whole width. -/
def removeTrailingWhitespace (r : Run) : Run :=
  let tc' := r.textContent.map fun tc => { tc with length := tc.length - 1 }
  let r1 := { r with textContent := tc' }
  (r1.visuallyCollapseTrailingWhitespace r1.trailingWhitespaceWidth).1

end Run

/-- Line::TrimmableTrailingContent state (fields of the source class; the
run-list reference is resolved at the `Line` level). -/
structure TrimmableTrailingContent where
  firstTrimmableRunIndex : Option ℕ := Option.none
  fullyTrimmableWidth : ℤ := 0
  partlyTrimmableWidth : ℤ := 0
  hasFullyTrimmableContent : Bool := false
deriving DecidableEq

namespace TrimmableTrailingContent

/-- Modelled from the spec: `TrimmableTrailingContent::isEmpty`
(`InlineLine.h`): no trimmable run is tracked. -/
def isEmpty (t : TrimmableTrailingContent) : Bool :=
  decide (t.firstTrimmableRunIndex = Option.none)

/-- Modelled from the spec: `TrimmableTrailingContent::width` (`InlineLine.h`):
the total trackable width, fully plus partly trimmable (spec §4.3 "compute the
total width removed"). -/
def width (t : TrimmableTrailingContent) : ℤ :=
  t.fullyTrimmableWidth + t.partlyTrimmableWidth

/-- Modelled from the spec: `TrimmableTrailingContent::isTrailingRunPartiallyTrimmable`
(`InlineLine.h`): some letter-spacing width is tracked for the trailing run. -/
def isTrailingRunPartlyTrimmable (t : TrimmableTrailingContent) : Bool :=
  decide (t.partlyTrimmableWidth ≠ 0)

/-- TrimmableTrailingContent::addFullyTrimmableContent (source lines 384–392). -/
def addFullyTrimmableContent (t : TrimmableTrailingContent) (runIndex : ℕ)
    (trimmableWidth : ℤ) : TrimmableTrailingContent :=
  { t with fullyTrimmableWidth := trimmableWidth,
           hasFullyTrimmableContent := true,
           firstTrimmableRunIndex := some (t.firstTrimmableRunIndex.getD runIndex) }

/-- TrimmableTrailingContent::addPartiallyTrimmableContent (source lines
394–403; renamed `Partly` here). -/
def addPartlyTrimmableContent (t : TrimmableTrailingContent) (runIndex : ℕ)
    (trimmableWidth : ℤ) : TrimmableTrailingContent :=
  { t with partlyTrimmableWidth := trimmableWidth,
           firstTrimmableRunIndex := some runIndex }

/-- TrimmableTrailingContent::addPartiallyTrimmableContent with its four
source assertions modelled as a guard: the call fails (returns nothing) when
any asserted precondition is violated. -/
def addPartlyTrimmableContentChecked (t : TrimmableTrailingContent)
    (runIndex : ℕ) (trimmableWidth : ℤ) : Option TrimmableTrailingContent :=
  if t.firstTrimmableRunIndex = Option.none ∧ t.hasFullyTrimmableContent = false ∧
      t.partlyTrimmableWidth = 0 ∧ trimmableWidth ≠ 0 then
    some (t.addPartlyTrimmableContent runIndex trimmableWidth)
  else
    Option.none

end TrimmableTrailingContent

/-- Per-pass configuration threaded in place of the source's ambient state
(spec §9): the layout-integration feature flag
(`RuntimeEnabledFeatures::layoutFormattingContextIntegrationEnabled`), the root
style's text-align, and `LayoutState::shouldIgnoreTrailingLetterSpacing`. -/
structure LayoutConfig where
  integrationEnabled : Bool
  rootTextAlign : TextAlignMode
  ignoreTrailingLetterSpacing : Bool
deriving DecidableEq

/-- Line state (spec §3): ordered run list, running content width, non-spanning
inline-level box count, trailing soft-hyphen cache, trimmable tracking. -/
structure Line where
  runs : List Run := []
  contentLogicalWidth : ℤ := 0
  nonSpanningInlineLevelBoxCount : ℕ := 0
  trailingSoftHyphenWidth : Option ℤ := Option.none
  trimmableTrailingContent : TrimmableTrailingContent := {}
deriving DecidableEq

/-- The state `Line::initialize` establishes at the start of a line attempt. -/
def initialLine : Line := {}

namespace Line

/-- Modelled from the spec: `Line::contentLogicalRight` (`InlineLine.h`): the
position where the next run is placed. Spec §4.1 places every new run "at the
current content-right" — in particular an atomic box run lands at the
content-right observed before the append's own width contribution, which in
the source (where the width is bumped first) forces the content-right to be
the last run's logical right edge, zero on an empty line. -/
def contentLogicalRight (L : Line) : ℤ :=
  match L.runs.getLast? with
  | some r => r.logicalRight
  | Option.none => 0

/-- The backward scan of `willCollapseCompletely` (source lines 263–277) over
the reversed run list: stop at an atomic box (no collapse), decide at the
first text run by its collapsible trailing whitespace, skip structural runs,
and collapse as leading whitespace when the scan exhausts the line. -/
def collapseScan : List Run → Bool
  | [] => true
  | r :: rs =>
    if r.isBox then false
    else if r.isText then r.hasCollapsibleTrailingWhitespace
    else collapseScan rs

/-- The `willCollapseCompletely` lambda of Line::appendTextContent (source
lines 256–278). -/
def willCollapseCompletely (L : Line) (it : InlineTextItem) : Bool :=
  if it.isEmptyContent then true
  else if !it.isWhitespace then false
  else if shouldPreserveSpacesAndTabs it then false
  else collapseScan L.runs.reverse

/-- Apply a function to the last element of a list (the source's
`m_runs.last()` in-place update). -/
def modifyLast (f : Run → Run) : List Run → List Run
  | [] => []
  | [r] => [f r]
  | r :: rs => r :: modifyLast f rs

/-- Apply a function to the element at a given index (the source's
`m_runs[index]` in-place update); out-of-range indices leave the list as is. -/
def modifyAt (f : Run → Run) : ℕ → List Run → List Run
  | _, [] => []
  | 0, r :: rs => f r :: rs
  | n + 1, r :: rs => r :: modifyAt f n rs

/-- Line::appendTextContent (source lines 253–318). -/
def appendTextContent (cfg : LayoutConfig) (L : Line) (it : InlineTextItem)
    (w : ℤ) : Line :=
  if L.willCollapseCompletely it then L
  else
    let needsNewRun : Bool :=
      match L.runs.getLast? with
      | Option.none => true
      | some lastRun =>
        if lastRun.box ≠ it.box then true
        else if !lastRun.isText then true
        else if lastRun.hasCollapsedTrailingWhitespace then true
        else if it.isWordSeparator && decide (it.box.style.wordSpacing ≠ 0) then true
        else false
    let oldW := L.contentLogicalWidth
    let L1 :=
      if needsNewRun then
        let left := L.contentLogicalRight +
          (if it.isWordSeparator then it.box.style.wordSpacing else 0)
        { L with runs := L.runs ++ [Run.ofTextItem it left w],
                 contentLogicalWidth := max oldW (left + w) }
      else
        { L with runs := modifyLast (fun r => r.expand it w) L.runs,
                 contentLogicalWidth := oldW + max 0 w }
    if it.isWhitespace && !shouldPreserveSpacesAndTabs it then
      let tAdd := L1.trimmableTrailingContent.addFullyTrimmableContent
        (L1.runs.length - 1) (L1.contentLogicalWidth - oldW)
      { L1 with trimmableTrailingContent := tAdd }
    else
      let t1 : TrimmableTrailingContent := {}
      let t2 :=
        if !cfg.ignoreTrailingLetterSpacing && !it.isWhitespace &&
            decide (0 < it.box.style.letterSpacing) then
          t1.addPartlyTrimmableContent (L1.runs.length - 1) it.box.style.letterSpacing
        else t1
      let hy := if it.hasTrailingSoftHyphen then some it.box.style.hyphenWidth
        else (Option.none : Option ℤ)
      { L1 with trimmableTrailingContent := t2, trailingSoftHyphenWidth := hy }

/-- Line::appendTextContent with the source assertions of
`addPartiallyTrimmableContent` modelled as a guard (via
`addPartlyTrimmableContentChecked`); returns nothing when a letter-spacing
recording would violate those asserted preconditions. -/
def appendTextContentChecked (cfg : LayoutConfig) (L : Line)
    (it : InlineTextItem) (w : ℤ) : Option Line :=
  if L.willCollapseCompletely it then some L
  else
    let needsNewRun : Bool :=
      match L.runs.getLast? with
      | Option.none => true
      | some lastRun =>
        if lastRun.box ≠ it.box then true
        else if !lastRun.isText then true
        else if lastRun.hasCollapsedTrailingWhitespace then true
        else if it.isWordSeparator && decide (it.box.style.wordSpacing ≠ 0) then true
        else false
    let oldW := L.contentLogicalWidth
    let L1 :=
      if needsNewRun then
        let left := L.contentLogicalRight +
          (if it.isWordSeparator then it.box.style.wordSpacing else 0)
        { L with runs := L.runs ++ [Run.ofTextItem it left w],
                 contentLogicalWidth := max oldW (left + w) }
      else
        { L with runs := modifyLast (fun r => r.expand it w) L.runs,
                 contentLogicalWidth := oldW + max 0 w }
    if it.isWhitespace && !shouldPreserveSpacesAndTabs it then
      let tAdd := L1.trimmableTrailingContent.addFullyTrimmableContent
        (L1.runs.length - 1) (L1.contentLogicalWidth - oldW)
      some { L1 with trimmableTrailingContent := tAdd }
    else
      let t1 : TrimmableTrailingContent := {}
      let hy := if it.hasTrailingSoftHyphen then some it.box.style.hyphenWidth
        else (Option.none : Option ℤ)
      if !cfg.ignoreTrailingLetterSpacing && !it.isWhitespace &&
          decide (0 < it.box.style.letterSpacing) then
        match t1.addPartlyTrimmableContentChecked (L1.runs.length - 1)
            it.box.style.letterSpacing with
        | some t2 =>
          some { L1 with trimmableTrailingContent := t2, trailingSoftHyphenWidth := hy }
        | Option.none => Option.none
      else
        some { L1 with trimmableTrailingContent := t1, trailingSoftHyphenWidth := hy }

/-- Line::appendNonBreakableSpace (source lines 224–230). -/
def appendNonBreakableSpace (L : Line) (it : InlineItem) (left w : ℤ) : Line :=
  { L with runs := L.runs ++ [Run.ofItem it left w],
           contentLogicalWidth := max L.contentLogicalWidth (left + w) }

/-- Line::appendInlineBoxStart (source lines 232–237). -/
def appendInlineBoxStart (L : Line) (it : InlineItem) (w : ℤ) : Line :=
  let L0 := { L with nonSpanningInlineLevelBoxCount :=
    L.nonSpanningInlineLevelBoxCount + 1 }
  L0.appendNonBreakableSpace it L0.contentLogicalRight w

/-- TrimmableTrailingContent::remove (source lines 405–438), resolved against
the line's run list: strip the tracked trailing content off the first
trimmable run, shift all later runs left by the removed width, drop the run
when its text span became empty, reset the tracking, and return the removed
width. A line with no tracked index is returned unchanged (the source asserts
this is never reached). -/
def trimmableRemove (L : Line) : Line × ℤ :=
  match L.trimmableTrailingContent.firstTrimmableRunIndex with
  | Option.none => (L, 0)
  | some idx =>
    let runs1 :=
      if L.trimmableTrailingContent.hasFullyTrimmableContent then
        modifyAt Run.removeTrailingWhitespace idx L.runs
      else L.runs
    let runs2 :=
      if L.trimmableTrailingContent.partlyTrimmableWidth ≠ 0 then
        modifyAt Run.removeTrailingLetterSpacing idx runs1
      else runs1
    let w := L.trimmableTrailingContent.width
    let runs3 := (runs2.take (idx + 1)) ++
      ((runs2.drop (idx + 1)).map fun r => r.moveHorizontally (-w))
    let emptied :=
      match (runs3.drop idx).head? with
      | some r =>
        match r.textContent with
        | some tc => tc.length == 0
        | Option.none => false
      | Option.none => false
    let runs4 := if emptied then runs3.eraseIdx idx else runs3
    ({ L with runs := runs4, trimmableTrailingContent := {} }, w)

/-- Line::appendInlineBoxEnd (source lines 239–251): pull back any pending
trailing letter-spacing, then place the zero-content boundary run. -/
def appendInlineBoxEnd (L : Line) (it : InlineItem) (w : ℤ) : Line :=
  let L1 :=
    if L.trimmableTrailingContent.isTrailingRunPartlyTrimmable then
      let p := L.trimmableRemove
      { p.1 with contentLogicalWidth := p.1.contentLogicalWidth - p.2 }
    else L
  L1.appendNonBreakableSpace it L1.contentLogicalRight w

/-- Line::appendNonReplacedInlineLevelBox (source lines 320–336). -/
def appendNonReplacedInlineLevelBox (L : Line) (it : InlineItem)
    (marginBoxLogicalWidth : ℤ) : Line :=
  let L1 := { L with trimmableTrailingContent := {},
                     trailingSoftHyphenWidth := Option.none,
                     contentLogicalWidth := L.contentLogicalWidth + marginBoxLogicalWidth,
                     nonSpanningInlineLevelBoxCount :=
                       L.nonSpanningInlineLevelBoxCount + 1 }
  let marginStart := it.box.marginStart
  if 0 ≤ marginStart then
    { L1 with runs := L1.runs ++
        [Run.ofItem it L1.contentLogicalRight marginBoxLogicalWidth] }
  else
    { L1 with runs := L1.runs ++
        [Run.ofItem it (L1.contentLogicalRight + marginStart)
          (marginBoxLogicalWidth - marginStart)] }

/-- Line::appendReplacedInlineLevelBox (source lines 338–343): replaced boxes
currently share the non-replaced placement logic. -/
def appendReplacedInlineLevelBox (L : Line) (it : InlineItem)
    (marginBoxLogicalWidth : ℤ) : Line :=
  L.appendNonReplacedInlineLevelBox it marginBoxLogicalWidth

/-- Line::appendLineBreak (source lines 345–355). -/
def appendLineBreak (L : Line) (it : InlineItem) : Line :=
  let L0 := { L with trailingSoftHyphenWidth := (Option.none : Option ℤ) }
  if it.ty = ItemType.hardLineBreak then
    { L0 with nonSpanningInlineLevelBoxCount := L0.nonSpanningInlineLevelBoxCount + 1,
              runs := L0.runs ++ [Run.ofItem it L0.contentLogicalRight 0] }
  else
    { L0 with runs := L0.runs ++ [Run.ofSoftBreak it L0.contentLogicalRight] }

/-- Line::appendWordBreakOpportunity (source lines 357–360). -/
def appendWordBreakOpportunity (L : Line) (it : InlineItem) : Line :=
  { L with runs := L.runs ++ [Run.ofItem it L.contentLogicalRight 0] }

/-- Line::removeTrailingTrimmableContent (source lines 143–164), with the
feature flag and root text-align threaded through `LayoutConfig`. -/
def removeTrailingTrimmableContent (cfg : LayoutConfig) (L : Line) : Line :=
  if L.trimmableTrailingContent.isEmpty || L.runs.isEmpty then L
  else if cfg.integrationEnabled &&
      ((L.runs.getLast?.map Run.isLineBreak).getD false) &&
      !isTextAlignRight cfg.rootTextAlign then
    { L with trimmableTrailingContent := {} }
  else
    let p := L.trimmableRemove
    { p.1 with contentLogicalWidth := p.1.contentLogicalWidth - p.2 }

/-- The backward loop of Line::visuallyCollapsePreWrapOverflowContent (source
lines 178–200) over the reversed run list: returns the updated (still
reversed) runs and the total trimmed width. -/
def vcLoop : ℤ → List Run → List Run × ℤ
  | _, [] => ([], 0)
  | overflow, r :: rs =>
    if r.style.whiteSpace ≠ WhiteSpaceMode.preWrap then (r :: rs, 0)
    else if !(r.isInlineBoxStart || r.isInlineBoxEnd || r.hasTrailingWhitespace) then
      (r :: rs, 0)
    else
      let p :=
        if r.isText then r.visuallyCollapseTrailingWhitespace overflow
        else (r.shrinkHorizontally r.logicalWidth, r.logicalWidth)
      if overflow - p.2 ≤ 0 then (p.1 :: rs, p.2)
      else
        let q := vcLoop (overflow - p.2) rs
        (p.1 :: q.1, p.2 + q.2)

/-- Line::visuallyCollapsePreWrapOverflowContent (source lines 166–202). -/
def visuallyCollapsePreWrapOverflowContent (L : Line)
    (extraHorizontalSpace : ℤ) : Line :=
  let overflowWidth := -extraHorizontalSpace
  if overflowWidth ≤ 0 then L
  else
    let q := vcLoop overflowWidth L.runs.reverse
    { L with runs := q.1.reverse,
             contentLogicalWidth := L.contentLogicalWidth - q.2 }

/-- Line::removeCollapsibleContent (source lines 62–66). -/
def removeCollapsibleContent (cfg : LayoutConfig) (L : Line)
    (extraHorizontalSpace : ℤ) : Line :=
  (L.removeTrailingTrimmableContent cfg).visuallyCollapsePreWrapOverflowContent
    extraHorizontalSpace

end Line

/-- The backward scan of Line::addTrailingHyphen (source lines 362–372) over
the reversed run list: attach the hyphen to the first text run found; nothing
when no text run exists (the source's unreachable assertion). -/
def addHyphenRev (hw : ℤ) : List Run → Option (List Run)
  | [] => Option.none
  | r :: rs =>
    if r.isText then some (r.setNeedsHyphen hw :: rs)
    else (addHyphenRev hw rs).map (r :: ·)

/-- Line::addTrailingHyphen (source lines 362–372): attach the hyphen width to
the last text run and grow the content width by it; fails (fatal assertion in
the source) when the line has no text run. -/
def Line.addTrailingHyphen (L : Line) (hw : ℤ) : Option Line :=
  match addHyphenRev hw L.runs.reverse with
  | some rs => some { L with runs := rs.reverse,
                             contentLogicalWidth := L.contentLogicalWidth + hw }
  | Option.none => Option.none

/-- The external `FontCascade::expansionOpportunityCount` (font shaping is out
of scope per spec §1): given a text run and the expansion behavior computed
for it, the script-specific expansion opportunity count within the run and
whether an expansion point would follow the run. The development is
parametrized over this oracle. -/
def Oracle : Type := Run → ExpansionBehavior → ℕ × Bool

/-- The per-line accumulator of Line::applyRunExpansion's first pass (source
lines 80–110): per-run expansion behaviors and opportunity counts, the line
total, the index of the last content-bearing run, and the trailing
`runIsAfterExpansion` flag. -/
structure ExpData where
  behaviors : List ExpansionBehavior
  opps : List ℕ
  total : ℕ
  lastContent : Option ℕ
  after : Bool
deriving DecidableEq

/-- One iteration of the opportunity-collection loop of
Line::applyRunExpansion (source lines 88–110); the run's index is the number
of behaviors recorded so far. -/
def expStep (oracle : Oracle) (d : ExpData) (r : Run) : ExpData :=
  let i := d.behaviors.length
  let step :=
    if r.isText && !stylePreservesSpacesAndTabs r.box then
      if r.style.textCombineHorizontal then
        ((⟨.forbid, .forbid⟩ : ExpansionBehavior), 0, d.after)
      else
        let b : ExpansionBehavior :=
          ⟨if d.after then .forbid else .allow, .allow⟩
        let ca := oracle r b
        (b, ca.1, ca.2)
    else if r.isBox then (DefaultExpansion, 0, false)
    else (DefaultExpansion, 0, d.after)
  { behaviors := d.behaviors ++ [step.1],
    opps := d.opps ++ [step.2.1],
    total := d.total + step.2.1,
    lastContent := if r.isText || r.isBox then some i else d.lastContent,
    after := step.2.2 }

/-- The full opportunity-collection pass of Line::applyRunExpansion. -/
def expPass (oracle : Oracle) (runs : List Run) : ExpData :=
  runs.foldl (expStep oracle) ⟨[], [], 0, Option.none, true⟩

/-- The last-run fix-up of Line::applyRunExpansion (source lines 111–123):
when the last content-bearing run has a nonzero opportunity count, keep only
its leading expansion bits and forbid right expansion; when the pass ended
right after an expansion point, subtract that trailing opportunity from both
the run's and the line's counts. -/
def expFixup (d : ExpData) : ExpData :=
  match d.lastContent with
  | some i =>
    if d.opps.getD i 0 ≠ 0 then
      let b' := d.behaviors.set i ⟨(d.behaviors.getD i DefaultExpansion).left, .forbid⟩
      let d1 := { d with behaviors := b' }
      if d.after then
        { d1 with opps := d1.opps.set i (d.opps.getD i 0 - 1), total := d.total - 1 }
      else d1
    else d
  | Option.none => d

/-- The distribution loop of Line::applyRunExpansion (source lines 127–138):
walk the runs consuming the per-run opportunity counts and behaviors, moving
each run right by the accumulated expansion, storing its expansion state and
growing its width by its own share; returns the updated runs and the total
accumulated expansion. -/
def distRuns (per : ℤ) : List Run → List ℕ → List ExpansionBehavior → ℤ →
    List Run × ℤ
  | [], _, _, acc => ([], acc)
  | r :: rs, o, b, acc =>
    let computed := per * (o.headD 0 : ℕ)
    let r' := ((r.moveHorizontally acc).shrinkHorizontally (-computed)).setExpansion
      (b.headD DefaultExpansion) computed
    let q := distRuns per rs o.tail b.tail (acc + computed)
    (r' :: q.1, q.2)

/-- Line::applyRunExpansion (source lines 68–141). -/
def Line.applyRunExpansion (oracle : Oracle) (L : Line)
    (extraHorizontalSpace : ℤ) : Line :=
  if L.runs.isEmpty || ((L.runs.getLast?.map Run.isLineBreak).getD false) then L
  else if extraHorizontalSpace = 0 then L
  else
    let d := expFixup (expPass oracle L.runs)
    if d.total = 0 then L
    else
      let per := extraHorizontalSpace / (d.total : ℤ)
      let q := distRuns per L.runs d.opps d.behaviors 0
      { L with runs := q.1, contentLogicalWidth := L.contentLogicalWidth + q.2 }

/-- The total expansion-opportunity count Line::applyRunExpansion distributes
over: the line total after the opportunity pass and the last-run fix-up. -/
def Line.totalExpansionOpportunities (oracle : Oracle) (L : Line) : ℕ :=
  (expFixup (expPass oracle L.runs)).total

/-- Append a list of measured text items in order (repeated
Line::appendTextContent calls by the line-breaking loop). -/
def appendTextItems (cfg : LayoutConfig) (L : Line)
    (items : List (InlineTextItem × ℤ)) : Line :=
  items.foldl (fun acc p => acc.appendTextContent cfg p.1 p.2) L

/-- Line states reachable through the public mutation protocol from the
initialized line (spec §3 lifecycle). -/
inductive Reachable (cfg : LayoutConfig) (oracle : Oracle) : Line → Prop
  | init : Reachable cfg oracle initialLine
  | text (L : Line) (it : InlineTextItem) (w : ℤ) :
      Reachable cfg oracle L → Reachable cfg oracle (L.appendTextContent cfg it w)
  | lineBreak (L : Line) (it : InlineItem) :
      Reachable cfg oracle L → Reachable cfg oracle (L.appendLineBreak it)
  | wordBreak (L : Line) (it : InlineItem) :
      Reachable cfg oracle L → Reachable cfg oracle (L.appendWordBreakOpportunity it)
  | boxStart (L : Line) (it : InlineItem) (w : ℤ) :
      Reachable cfg oracle L → Reachable cfg oracle (L.appendInlineBoxStart it w)
  | boxEnd (L : Line) (it : InlineItem) (w : ℤ) :
      Reachable cfg oracle L → Reachable cfg oracle (L.appendInlineBoxEnd it w)
  | atomicBox (L : Line) (it : InlineItem) (w : ℤ) :
      Reachable cfg oracle L →
      Reachable cfg oracle (L.appendNonReplacedInlineLevelBox it w)
  | replacedBox (L : Line) (it : InlineItem) (w : ℤ) :
      Reachable cfg oracle L →
      Reachable cfg oracle (L.appendReplacedInlineLevelBox it w)
  | collapse (L : Line) (e : ℤ) :
      Reachable cfg oracle L → Reachable cfg oracle (L.removeCollapsibleContent cfg e)
  | justify (L : Line) (e : ℤ) :
      Reachable cfg oracle L → Reachable cfg oracle (L.applyRunExpansion oracle e)
  | hyphen (L L' : Line) (hw : ℤ) :
      Reachable cfg oracle L → L.addTrailingHyphen hw = some L' →
      Reachable cfg oracle L'

/-- The run-level invariant of claim C10: a run with no trailing whitespace
recorded carries zero trailing whitespace width. -/
def Run.wsInvariant (r : Run) : Prop :=
  r.trailingWhitespaceType = TrailingWhitespace.none → r.trailingWhitespaceWidth = 0

/-! Concrete styles, boxes, items and lines used as evaluation inputs. -/

/-- A plain style: collapsing whitespace, no spacing adjustments. -/
def plainStyle : Style :=
  { whiteSpace := .collapse, letterSpacing := 0, wordSpacing := 0,
    textCombineHorizontal := false, hyphenWidth := 1 }

/-- A style with positive letter-spacing. -/
def spacedStyle : Style := { plainStyle with letterSpacing := 2 }

/-- A pre-wrap style (preserved spaces and tabs). -/
def preWrapStyle : Style := { plainStyle with whiteSpace := .preWrap }

/-- A plain box. -/
def box0 : Box := { id := 0, style := plainStyle, marginStart := 0, isReplaced := false }

/-- A second plain box, distinct from `box0`. -/
def box1 : Box := { id := 1, style := plainStyle, marginStart := 0, isReplaced := false }

/-- A box with positive letter-spacing. -/
def boxLS : Box := { id := 3, style := spacedStyle, marginStart := 0, isReplaced := false }

/-- A pre-wrap box. -/
def boxPW : Box := { id := 4, style := preWrapStyle, marginStart := 0, isReplaced := false }

/-- An atomic box with negative margin-start. -/
def boxNeg : Box := { id := 5, style := plainStyle, marginStart := -3, isReplaced := false }

/-- A style with positive word-spacing. -/
def wordSpacedStyle : Style := { plainStyle with wordSpacing := 5 }

/-- A box with positive word-spacing. -/
def boxWS : Box := { id := 6, style := wordSpacedStyle, marginStart := 0, isReplaced := false }

/-- A baseline configuration: integration quirk off, left-aligned root,
trailing letter-spacing not ignored. -/
def baseConfig : LayoutConfig :=
  { integrationEnabled := false, rootTextAlign := .leftAlign,
    ignoreTrailingLetterSpacing := false }

/-- A non-whitespace text item of the given box and length. -/
def itemText (b : Box) (len : ℕ) : InlineTextItem :=
  { box := b, start := 0, length := len, isWhitespace := false,
    isWordSeparator := false, hasTrailingSoftHyphen := false }

/-- A whitespace-only text item of the given box and length. -/
def itemWs (b : Box) (len : ℕ) : InlineTextItem :=
  { box := b, start := 0, length := len, isWhitespace := true,
    isWordSeparator := false, hasTrailingSoftHyphen := false }

/-- A whitespace-only word-separator text item of the given box and length. -/
def itemWsSep (b : Box) (len : ℕ) : InlineTextItem :=
  { box := b, start := 0, length := len, isWhitespace := true,
    isWordSeparator := true, hasTrailingSoftHyphen := false }

/-- An inline box end marker item for the letter-spacing box. -/
def itemBoxEndLS : InlineItem := { ty := .inlineBoxEnd, box := boxLS }

/-- An inline box end marker item for the pre-wrap box. -/
def itemBoxEndPW : InlineItem := { ty := .inlineBoxEnd, box := boxPW }

/-- An atomic inline-level box item on a plain box. -/
def itemAtomic0 : InlineItem := { ty := .atomicBox, box := box0 }

/-- An atomic inline-level box item with negative margin-start. -/
def itemAtomicNeg : InlineItem := { ty := .atomicBox, box := boxNeg }

/-- A word break opportunity item. -/
def itemWB : InlineItem := { ty := .wordBreakOpportunity, box := box0 }

/-- A line holding one plain text run of `box0`, width 10. -/
def exLineText0 : Line := initialLine.appendTextContent baseConfig (itemText box0 2) 10

/-- A line holding one letter-spaced text run of `boxLS`, width 10. -/
def exLetterLine : Line := initialLine.appendTextContent baseConfig (itemText boxLS 2) 10

/-- A letter-spaced text run followed by a same-box whitespace item: the line
whose trimmable tracking records both letter-spacing and fully trimmable
whitespace. -/
def exStaleLine : Line :=
  (initialLine.appendTextContent baseConfig (itemText boxLS 2) 10).appendTextContent
    baseConfig (itemWs boxLS 1) 3

/-- A pre-wrap text run with preserved trailing whitespace followed by an
inline box end marker. -/
def exPreWrapLine : Line :=
  (((initialLine.appendTextContent baseConfig (itemText boxPW 2) 9).appendTextContent
    baseConfig (itemWs boxPW 1) 10).appendInlineBoxEnd itemBoxEndPW 3)

/-- A line holding a text run and a trailing word-break-opportunity run. -/
def exHyphLine : Line :=
  (initialLine.appendTextContent baseConfig (itemText box0 2) 10).appendWordBreakOpportunity
    itemWB

/-- Two text runs of distinct boxes, for justification inputs. -/
def exJustifyLine : Line :=
  (initialLine.appendTextContent baseConfig (itemText box0 3) 6).appendTextContent
    baseConfig (itemText box1 2) 4

/-- An expansion oracle granting one opportunity (not after an expansion
point) inside `box0` text and none elsewhere. -/
def oracleA : Oracle := fun r _ => if r.box.id = 0 then (1, false) else (0, false)

/-- An expansion oracle granting two opportunities ending right after an
expansion point inside `box1` text, and one opportunity elsewhere. -/
def oracleB : Oracle := fun r _ => if r.box.id = 1 then (2, true) else (1, false)

/-- A default run value used with `List.getD`. -/
def dummyRun : Run := Run.ofItem { ty := ItemType.text, box := box0 } 0 0

/-! Helper lemmas. -/

theorem Run.isBox_eq_false_of_isText {r : Run} (h : r.isText = true) :
    r.isBox = false := by
  have ht : r.ty = ItemType.text := of_decide_eq_true h
  show decide (r.ty = ItemType.atomicBox) = false
  rw [ht]
  rfl

theorem appendTextContent_width_cases (cfg : LayoutConfig) (L : Line)
    (it : InlineTextItem) (w : ℤ) :
    (L.appendTextContent cfg it w).contentLogicalWidth = L.contentLogicalWidth
    ∨ (L.appendTextContent cfg it w).contentLogicalWidth
        = max L.contentLogicalWidth ((L.contentLogicalRight +
            (if it.isWordSeparator then it.box.style.wordSpacing else 0)) + w)
    ∨ (L.appendTextContent cfg it w).contentLogicalWidth
        = L.contentLogicalWidth + max 0 w := by
  unfold Line.appendTextContent
  repeat' split
  all_goals first
    | exact Or.inl rfl
    | exact Or.inr (Or.inl rfl)
    | exact Or.inr (Or.inr rfl)

theorem Line.contentLogicalRight_mk (runs : List Run) (cw : ℤ) (ns : ℕ)
    (sh : Option ℤ) (t : TrimmableTrailingContent) :
    Line.contentLogicalRight ⟨runs, cw, ns, sh, t⟩ = Line.contentLogicalRight ⟨runs, 0, 0, Option.none, {}⟩ := rfl

/-! C2. -/

/-- C2: an atomic inline-level box of margin-box width `W` appended at
content-right `R` is placed at `R` with width `W` when its margin-start `m` is
nonnegative; when `m < 0` the run is placed at `R + m` with width `W - m`, so
its right edge is `R + W` either way; the replaced-box appender shares this
placement. -/
theorem c2_atomic_box_margin_placement (L : Line) (it : InlineItem) (W : ℤ) :
    (it.box.marginStart < 0 →
      (L.appendNonReplacedInlineLevelBox it W).runs
        = L.runs ++ [Run.ofItem it (L.contentLogicalRight + it.box.marginStart)
            (W - it.box.marginStart)]
      ∧ (L.contentLogicalRight + it.box.marginStart) + (W - it.box.marginStart)
          = L.contentLogicalRight + W)
    ∧ (0 ≤ it.box.marginStart →
      (L.appendNonReplacedInlineLevelBox it W).runs
        = L.runs ++ [Run.ofItem it L.contentLogicalRight W])
    ∧ L.appendReplacedInlineLevelBox it W = L.appendNonReplacedInlineLevelBox it W := by
  refine ⟨fun hm => ⟨?_, by ring⟩, fun hm => ?_, rfl⟩
  · unfold Line.appendNonReplacedInlineLevelBox
    rw [if_neg (not_le.mpr hm)]
    rfl
  · unfold Line.appendNonReplacedInlineLevelBox
    rw [if_pos hm]
    rfl

/-- C2 witness: the negative-margin case evaluated at margin-start −3,
margin-box width 10, on the empty line. -/
theorem c2_witness :
    (initialLine.appendNonReplacedInlineLevelBox itemAtomicNeg 10).runs
      = initialLine.runs ++ [Run.ofItem itemAtomicNeg
          (initialLine.contentLogicalRight + itemAtomicNeg.box.marginStart)
          (10 - itemAtomicNeg.box.marginStart)]
    ∧ (initialLine.contentLogicalRight + itemAtomicNeg.box.marginStart)
        + (10 - itemAtomicNeg.box.marginStart)
        = initialLine.contentLogicalRight + 10 :=
  (c2_atomic_box_margin_placement initialLine itemAtomicNeg 10).1 (by decide)

/-! C8. -/

/-- C8: appending a whitespace text item with collapsing enabled (spaces and
tabs not preserved) to a line with an empty run list fully collapses: the line
is returned unchanged, with no new run and no width change. -/
theorem c8_leading_whitespace_collapses (cfg : LayoutConfig) (L : Line)
    (it : InlineTextItem) (w : ℤ) (hruns : L.runs = [])
    (hws : it.isWhitespace = true)
    (hp : shouldPreserveSpacesAndTabs it = false) :
    L.appendTextContent cfg it w = L := by
  have hc : L.willCollapseCompletely it = true := by
    unfold Line.willCollapseCompletely
    by_cases he : it.isEmptyContent = true
    · simp [he]
    · simp [he, hws, hp, hruns, Line.collapseScan]
  unfold Line.appendTextContent
  simp [hc]

/-- C8 witness: a single-space collapsing whitespace item appended to the
initialized line leaves it unchanged. -/
theorem c8_witness :
    initialLine.appendTextContent baseConfig (itemWs box1 1) 4 = initialLine :=
  c8_leading_whitespace_collapses baseConfig initialLine (itemWs box1 1) 4
    rfl rfl rfl

/-! C6. -/

/-- C6 counterexample: content width can shrink on an append. Appending an
inline box end marker to a line with pending trailing letter-spacing lowers
`contentLogicalWidth` from 10 to 8, and an atomic box appended with a negative
margin-box width lowers it as well — so not every append leaves the content
width greater than or equal to its previous value. -/
theorem c6_counterexample :
    (exLetterLine.appendInlineBoxEnd itemBoxEndLS 0).contentLogicalWidth
        < exLetterLine.contentLogicalWidth
    ∧ (initialLine.appendNonReplacedInlineLevelBox itemAtomic0 (-1)).contentLogicalWidth
        < initialLine.contentLogicalWidth := by
  constructor <;> decide

/-- C6 (amended): every append operation other than `appendInlineBoxEnd`
leaves `contentLogicalWidth` greater than or equal to its previous value,
provided the atomic-box appenders receive a nonnegative margin-box width;
`appendInlineBoxEnd` shrinks it by at most the tracked trimmable width (the
trailing letter-spacing it pulls back in). -/
theorem c6_append_width_monotone (cfg : LayoutConfig) (L : Line)
    (it : InlineTextItem) (item : InlineItem) (w W : ℤ) :
    L.contentLogicalWidth ≤ (L.appendTextContent cfg it w).contentLogicalWidth
    ∧ L.contentLogicalWidth ≤ (L.appendLineBreak item).contentLogicalWidth
    ∧ L.contentLogicalWidth ≤ (L.appendWordBreakOpportunity item).contentLogicalWidth
    ∧ L.contentLogicalWidth ≤ (L.appendInlineBoxStart item W).contentLogicalWidth
    ∧ min L.contentLogicalWidth
        (L.contentLogicalWidth - L.trimmableTrailingContent.width)
        ≤ (L.appendInlineBoxEnd item W).contentLogicalWidth
    ∧ (0 ≤ W →
        L.contentLogicalWidth ≤ (L.appendNonReplacedInlineLevelBox item W).contentLogicalWidth)
    ∧ (0 ≤ W →
        L.contentLogicalWidth ≤ (L.appendReplacedInlineLevelBox item W).contentLogicalWidth) := by
  have hbe : min L.contentLogicalWidth
      (L.contentLogicalWidth - L.trimmableTrailingContent.width)
      ≤ (L.appendInlineBoxEnd item W).contentLogicalWidth := by
    unfold Line.appendInlineBoxEnd
    by_cases hpt : L.trimmableTrailingContent.isTrailingRunPartlyTrimmable = true
    · rw [if_pos hpt]
      have hw : (L.trimmableRemove).1.contentLogicalWidth = L.contentLogicalWidth := by
        unfold Line.trimmableRemove
        cases L.trimmableTrailingContent.firstTrimmableRunIndex <;> rfl
      have hd : (L.trimmableRemove).2 = 0 ∨
          (L.trimmableRemove).2 = L.trimmableTrailingContent.width := by
        unfold Line.trimmableRemove
        cases L.trimmableTrailingContent.firstTrimmableRunIndex
        · exact Or.inl rfl
        · exact Or.inr rfl
      unfold Line.appendNonBreakableSpace
      dsimp only
      refine le_trans ?_ (le_max_left _ _)
      rw [hw]
      rcases hd with hd | hd <;> rw [hd]
      · rw [sub_zero]
        exact min_le_left _ _
      · exact min_le_right _ _
    · rw [if_neg hpt]
      unfold Line.appendNonBreakableSpace
      exact le_trans (min_le_left _ _) (le_max_left _ _)
  refine ⟨?_, ?_, ?_, ?_, hbe, fun hW => ?_, fun hW => ?_⟩
  · rcases appendTextContent_width_cases cfg L it w with h | h | h <;> rw [h]
    · exact le_max_left _ _
    · exact le_add_of_nonneg_right (le_max_left 0 w)
  · unfold Line.appendLineBreak
    dsimp only
    split <;> exact le_refl _
  · exact le_refl _
  · unfold Line.appendInlineBoxStart Line.appendNonBreakableSpace
    exact le_max_left _ _
  · unfold Line.appendNonReplacedInlineLevelBox
    dsimp only
    split <;> exact le_add_of_nonneg_right hW
  · unfold Line.appendReplacedInlineLevelBox Line.appendNonReplacedInlineLevelBox
    dsimp only
    split <;> exact le_add_of_nonneg_right hW

/-- C6 witness: the atomic-box conjunct applied at margin-box width 7 on the
empty line. -/
theorem c6_witness :
    initialLine.contentLogicalWidth
      ≤ (initialLine.appendNonReplacedInlineLevelBox itemAtomic0 7).contentLogicalWidth :=
  (c6_append_width_monotone baseConfig initialLine (itemText box0 1) itemAtomic0 1 7).2.2.2.2.2.1
    (by decide)

/-! C5. -/

theorem visuallyCollapse_eq_self_of_nonneg (L : Line) (E : ℤ) (hE : 0 ≤ E) :
    L.visuallyCollapsePreWrapOverflowContent E = L := by
  unfold Line.visuallyCollapsePreWrapOverflowContent
  dsimp only
  rw [if_pos (by omega : -E ≤ 0)]

theorem removeTrailingTrimmable_reset_or_id (cfg : LayoutConfig) (L : Line) :
    (L.removeTrailingTrimmableContent cfg).trimmableTrailingContent = {}
    ∨ L.removeTrailingTrimmableContent cfg = L := by
  unfold Line.removeTrailingTrimmableContent
  split
  · exact Or.inr rfl
  next hguard =>
    split
    · exact Or.inl rfl
    · left
      unfold Line.trimmableRemove
      cases hidx : L.trimmableTrailingContent.firstTrimmableRunIndex
      · exact absurd (by rw [Bool.or_eq_true]; exact Or.inl (by
          unfold TrimmableTrailingContent.isEmpty; rw [hidx]; rfl)) hguard
      · rfl

theorem removeTrailingTrimmable_of_reset (cfg : LayoutConfig) (M : Line)
    (h : M.trimmableTrailingContent = {}) :
    M.removeTrailingTrimmableContent cfg = M := by
  unfold Line.removeTrailingTrimmableContent
  rw [if_pos (by rw [h]; rfl : (M.trimmableTrailingContent.isEmpty || M.runs.isEmpty) = true)]

/-- C5 counterexample: `removeCollapsibleContent` is not idempotent in general.
On a line with preserved (pre-wrap) trailing whitespace wider than the
overflow, the first call with extra space −5 visually collapses 5 units of
width (22 to 17), and an immediately repeated call collapses 5 more (17 to
12): the pre-wrap overflow pass re-trims the remaining preserved trailing
whitespace. -/
theorem c5_counterexample :
    (exPreWrapLine.removeCollapsibleContent baseConfig (-5)).contentLogicalWidth = 17
    ∧ ((exPreWrapLine.removeCollapsibleContent baseConfig (-5)).removeCollapsibleContent
        baseConfig (-5)).contentLogicalWidth = 12 := by
  constructor <;> decide

/-- C5 (amended): `removeCollapsibleContent` is idempotent whenever the extra
horizontal space is nonnegative (the line does not overflow): the second call
returns the line of the first call unchanged. The trailing-trimmable removal
step is a no-op on the second call in every case; only the pre-wrap visual
collapse step can trim further width, and it fires only on overflow. -/
theorem c5_remove_collapsible_idempotent (cfg : LayoutConfig) (L : Line) (E : ℤ)
    (hE : 0 ≤ E) :
    (L.removeCollapsibleContent cfg E).removeCollapsibleContent cfg E
      = L.removeCollapsibleContent cfg E := by
  have hv := fun M : Line => visuallyCollapse_eq_self_of_nonneg M E hE
  unfold Line.removeCollapsibleContent
  simp only [hv]
  rcases removeTrailingTrimmable_reset_or_id cfg L with h | h
  · exact removeTrailingTrimmable_of_reset cfg _ h
  · rw [h, h]

/-- C5 witness: idempotence at extra space 2 on the pre-wrap example line. -/
theorem c5_witness :
    (exPreWrapLine.removeCollapsibleContent baseConfig 2).removeCollapsibleContent
        baseConfig 2
      = exPreWrapLine.removeCollapsibleContent baseConfig 2 :=
  c5_remove_collapsible_idempotent baseConfig exPreWrapLine 2 (by decide)

/-! C7. -/

/-- C7 counterexample: the mutual exclusion fails. The state reached by
appending letter-spaced text ("ab", letter-spacing 2) and then a same-box
collapsible whitespace item has both a nonzero partly-trimmable width (the
stale letter-spacing record) and the fully-trimmable flag set:
`addFullyTrimmableContent` does not clear the previously recorded
letter-spacing width. -/
theorem c7_counterexample :
    Reachable baseConfig oracleA exStaleLine
    ∧ exStaleLine.trimmableTrailingContent.partlyTrimmableWidth ≠ 0
    ∧ exStaleLine.trimmableTrailingContent.hasFullyTrimmableContent = true := by
  refine ⟨?_, by decide, by decide⟩
  exact Reachable.text _ _ _ (Reachable.text _ _ _ Reachable.init)

/-- C7 (amended): letter-spacing trimming is never recorded on a tracker that
already holds content — every `addPartiallyTrimmableContent` call made by
`appendTextContent` happens right after a reset, so its asserted preconditions
(no tracked index, no fully-trimmable content, no prior letter-spacing record,
nonzero width) always hold: the checked append never fails. The converse
exclusion does not hold — a letter-spacing width recorded earlier may persist
alongside a later fully-trimmable flag. -/
theorem c7_letter_spacing_recorded_on_reset_tracker (cfg : LayoutConfig)
    (L : Line) (it : InlineTextItem) (w : ℤ) :
    L.appendTextContentChecked cfg it w = some (L.appendTextContent cfg it w) := by
  unfold Line.appendTextContentChecked Line.appendTextContent
  dsimp only
  split
  · rfl
  · split
    · rfl
    · split
      next hls =>
        have h0 : (0:ℤ) < it.box.style.letterSpacing := by
          simp only [Bool.and_eq_true, decide_eq_true_eq] at hls
          exact hls.2
        unfold TrimmableTrailingContent.addPartlyTrimmableContentChecked
        rw [if_pos ⟨rfl, rfl, rfl, ne_of_gt h0⟩]
      next hls => rfl

/-! C10. -/

/-- C10: every run constructor establishes the whitespace-width invariant
(trailing whitespace type None implies zero trailing whitespace width),
`expand` maintains it, and `visuallyCollapseTrailingWhitespace` on a run with
trailing whitespace never removes more than the current trailing whitespace
width, resets the type to None exactly when the remaining trailing whitespace
width reaches zero, and maintains the invariant. -/
theorem c10_run_whitespace_invariant (itT : InlineTextItem) (itG : InlineItem)
    (left w ask : ℤ) (r : Run)
    (h : r.trailingWhitespaceType ≠ TrailingWhitespace.none) :
    (Run.ofTextItem itT left w).wsInvariant
    ∧ (Run.ofItem itG left w).wsInvariant
    ∧ (Run.ofSoftBreak itG left).wsInvariant
    ∧ (r.expand itT w).wsInvariant
    ∧ (r.visuallyCollapseTrailingWhitespace ask).2 ≤ r.trailingWhitespaceWidth
    ∧ ((r.visuallyCollapseTrailingWhitespace ask).1.trailingWhitespaceType
          = TrailingWhitespace.none
        ↔ (r.visuallyCollapseTrailingWhitespace ask).1.trailingWhitespaceWidth = 0)
    ∧ (r.visuallyCollapseTrailingWhitespace ask).1.wsInvariant := by
  refine ⟨?_, ?_, ?_, ?_, ?_, ?_, ?_⟩
  · unfold Run.wsInvariant Run.ofTextItem
    dsimp only
    intro hnone
    simp [hnone]
  · exact fun _ => rfl
  · exact fun _ => rfl
  · unfold Run.wsInvariant Run.expand
    dsimp only
    split
    · intro _
      rfl
    next hT =>
      intro hnone
      exact absurd hnone hT
  · exact min_le_right ask r.trailingWhitespaceWidth
  · unfold Run.visuallyCollapseTrailingWhitespace
    dsimp only
    split
    next h0 => simp [h0]
    next h0 => exact iff_of_false h h0
  · unfold Run.wsInvariant Run.visuallyCollapseTrailingWhitespace
    dsimp only
    split
    next h0 =>
      intro _
      exact h0
    next h0 =>
      intro hnone
      exact absurd hnone h

/-- C10 witness: the invariant conjunction instantiated at a collapsed
whitespace run (trailing whitespace width 5) asked to collapse 2 units. -/
theorem c10_witness :
    (Run.ofTextItem (itemText box0 1) 0 3).wsInvariant
    ∧ (Run.ofItem itemWB 0 3).wsInvariant
    ∧ (Run.ofSoftBreak itemWB 0).wsInvariant
    ∧ ((Run.ofTextItem (itemWs box0 2) 0 5).expand (itemText box0 1) 3).wsInvariant
    ∧ ((Run.ofTextItem (itemWs box0 2) 0 5).visuallyCollapseTrailingWhitespace 2).2
        ≤ (Run.ofTextItem (itemWs box0 2) 0 5).trailingWhitespaceWidth
    ∧ (((Run.ofTextItem (itemWs box0 2) 0 5).visuallyCollapseTrailingWhitespace
          2).1.trailingWhitespaceType = TrailingWhitespace.none
        ↔ ((Run.ofTextItem (itemWs box0 2) 0 5).visuallyCollapseTrailingWhitespace
          2).1.trailingWhitespaceWidth = 0)
    ∧ ((Run.ofTextItem (itemWs box0 2) 0 5).visuallyCollapseTrailingWhitespace
        2).1.wsInvariant :=
  c10_run_whitespace_invariant (itemText box0 1) itemWB 0 3 2
    (Run.ofTextItem (itemWs box0 2) 0 5) (by decide)

/-! C9. -/

theorem addHyphenRev_none (hw : ℤ) : ∀ l : List Run,
    (∀ r ∈ l, r.isText = false) → addHyphenRev hw l = Option.none
  | [], _ => rfl
  | r :: rs, h => by
    have hr : r.isText = false := h r (List.mem_cons_self r rs)
    have ht := addHyphenRev_none hw rs (fun x hx => h x (List.mem_cons_of_mem _ hx))
    unfold addHyphenRev
    rw [hr, ht]
    rfl

theorem addHyphenRev_found (hw : ℤ) (t : Run) (ht : t.isText = true) (b : List Run) :
    ∀ a : List Run, (∀ r ∈ a, r.isText = false) →
    addHyphenRev hw (a ++ t :: b) = some (a ++ t.setNeedsHyphen hw :: b)
  | [], _ => by
    show addHyphenRev hw (t :: b) = some (t.setNeedsHyphen hw :: b)
    unfold addHyphenRev
    rw [ht]
    rfl
  | r :: a', h => by
    have hr : r.isText = false := h r (List.mem_cons_self r a')
    have ih := addHyphenRev_found hw t ht b a' (fun x hx => h x (List.mem_cons_of_mem _ hx))
    show addHyphenRev hw (r :: (a' ++ t :: b))
        = some (r :: (a' ++ t.setNeedsHyphen hw :: b))
    unfold addHyphenRev
    rw [hr, ih]
    rfl

/-- C9: `addTrailingHyphen(hyphenWidth)` on a line whose run list decomposes as
`pre ++ t :: post` with `t` the last text run (nothing in `post` is text)
attaches the hyphen width to `t`, adds exactly `hyphenWidth` to the content
width, and leaves every other run unchanged; when the line holds no text run
at all, the fatal-assertion branch is reached (no result). -/
theorem c9_add_trailing_hyphen (L : Line) (hw : ℤ) :
    (∀ pre t post, L.runs = pre ++ t :: post → t.isText = true →
        (∀ r ∈ post, r.isText = false) →
        L.addTrailingHyphen hw
          = some { L with runs := pre ++ t.setNeedsHyphen hw :: post,
                          contentLogicalWidth := L.contentLogicalWidth + hw })
    ∧ ((∀ r ∈ L.runs, r.isText = false) →
        L.addTrailingHyphen hw = Option.none) := by
  constructor
  · intro pre t post hruns ht hpost
    unfold Line.addTrailingHyphen
    have hrev : L.runs.reverse = post.reverse ++ t :: pre.reverse := by
      rw [hruns]
      simp
    rw [hrev, addHyphenRev_found hw t ht pre.reverse post.reverse
        (fun r hr => hpost r (List.mem_reverse.mp hr))]
    have hback : (post.reverse ++ t.setNeedsHyphen hw :: pre.reverse).reverse
        = pre ++ t.setNeedsHyphen hw :: post := by
      simp
    dsimp only
    rw [hback]
  · intro h
    unfold Line.addTrailingHyphen
    rw [addHyphenRev_none hw L.runs.reverse (fun r hr => h r (List.mem_reverse.mp hr))]

/-- C9 witness: a hyphen of width 2 attached to the text run of a line holding
a text run followed by a word-break-opportunity run. -/
theorem c9_witness :
    exHyphLine.addTrailingHyphen 2
      = some { exHyphLine with
               runs := [] ++ (Run.ofTextItem (itemText box0 2) 0 10).setNeedsHyphen 2
                 :: [Run.ofItem itemWB 10 0],
               contentLogicalWidth := exHyphLine.contentLogicalWidth + 2 } :=
  (c9_add_trailing_hyphen exHyphLine 2).1 [] (Run.ofTextItem (itemText box0 2) 0 10)
    [Run.ofItem itemWB 10 0] (by decide) (by decide) (by decide)

/-! C1. -/

theorem appendTextContent_collapse_after_ws (cfg : LayoutConfig) (L : Line)
    (it : InlineTextItem) (w : ℤ) (M : List Run) (r : Run)
    (hruns : L.runs = M ++ [r]) (hrt : r.isText = true)
    (hrc : r.hasCollapsibleTrailingWhitespace = true)
    (hws : it.isWhitespace = true)
    (hp : shouldPreserveSpacesAndTabs it = false) :
    L.appendTextContent cfg it w = L := by
  have hscan : Line.collapseScan L.runs.reverse = true := by
    have hrev : L.runs.reverse = r :: M.reverse := by rw [hruns]; simp
    rw [hrev]
    simp [Line.collapseScan, Run.isBox_eq_false_of_isText hrt, hrt, hrc]
  have hc : L.willCollapseCompletely it = true := by
    unfold Line.willCollapseCompletely
    by_cases he : it.isEmptyContent = true
    · rw [if_pos he]
    · rw [if_neg he]
      simp [hws, hp, hscan]
  unfold Line.appendTextContent
  rw [if_pos hc]

/-- C1 counterexample: the claim fails as stated. Appending a single
(N = 1) single-space collapsing whitespace item after an existing text run of
another box yields a run whose trailing whitespace is `Collapsible`, not
`Collapsed`; and appending it to an empty line yields zero runs rather than
one. -/
theorem c1_counterexample :
    (exLineText0.appendTextContent baseConfig (itemWs box1 1) 4).runs.map
        (fun r => r.trailingWhitespaceType)
      = [TrailingWhitespace.none, TrailingWhitespace.collapsible]
    ∧ (initialLine.appendTextContent baseConfig (itemWs box1 1) 4).runs = [] := by
  constructor <;> decide

/-- C1 (amended): appending N ≥ 1 consecutive whitespace-only text items with
collapsing enabled after an existing text run of a different box that has no
collapsible trailing whitespace yields exactly one new run of the first item's
width, placed at the line's content-right — shifted right by the box's
word-spacing when the first item is a word separator; the run's trailing
whitespace is `Collapsed` when the first item spans more than one unit and
`Collapsible` for a single-unit item, its text span counts the whitespace as a
single logical text unit, and the remaining N − 1 items collapse completely,
leaving the line unchanged. -/
theorem c1_consecutive_whitespace_single_run (cfg : LayoutConfig) (L : Line)
    (M : List Run) (lr : Run) (it1 : InlineTextItem) (w1 : ℤ)
    (rest : List (InlineTextItem × ℤ))
    (hruns : L.runs = M ++ [lr])
    (hlt : lr.isText = true)
    (hlc : lr.hasCollapsibleTrailingWhitespace = false)
    (hbox : lr.box ≠ it1.box)
    (hws : it1.isWhitespace = true)
    (hp : shouldPreserveSpacesAndTabs it1 = false)
    (hlen : 1 ≤ it1.length)
    (hrest : ∀ p ∈ rest, p.1.isWhitespace = true
        ∧ shouldPreserveSpacesAndTabs p.1 = false) :
    appendTextItems cfg L ((it1, w1) :: rest)
      = { L with
          runs := L.runs ++ [Run.ofTextItem it1 (L.contentLogicalRight +
            (if it1.isWordSeparator then it1.box.style.wordSpacing else 0)) w1],
          contentLogicalWidth :=
            max L.contentLogicalWidth ((L.contentLogicalRight +
              (if it1.isWordSeparator then it1.box.style.wordSpacing else 0)) + w1),
          trimmableTrailingContent :=
            L.trimmableTrailingContent.addFullyTrimmableContent L.runs.length
              (max L.contentLogicalWidth ((L.contentLogicalRight +
                (if it1.isWordSeparator then it1.box.style.wordSpacing else 0)) + w1)
                - L.contentLogicalWidth) }
    ∧ (Run.ofTextItem it1 (L.contentLogicalRight +
        (if it1.isWordSeparator then it1.box.style.wordSpacing else 0))
          w1).trailingWhitespaceType
        = (if it1.length = 1 then TrailingWhitespace.collapsible
           else TrailingWhitespace.collapsed)
    ∧ (Run.ofTextItem it1 (L.contentLogicalRight +
        (if it1.isWordSeparator then it1.box.style.wordSpacing else 0))
          w1).textContent
        = some ⟨it1.start, 1⟩
    ∧ (Run.ofTextItem it1 (L.contentLogicalRight +
        (if it1.isWordSeparator then it1.box.style.wordSpacing else 0))
          w1).logicalWidth = w1 := by
  have hT : trailingWhitespaceTypeFor it1
      = (if it1.length = 1 then TrailingWhitespace.collapsible
         else TrailingWhitespace.collapsed) := by
    unfold trailingWhitespaceTypeFor
    rw [hws, hp]
    by_cases h1 : it1.length = 1
    · simp [h1]
    · simp [h1]
  have h1 : L.appendTextContent cfg it1 w1
      = { L with
          runs := L.runs ++ [Run.ofTextItem it1 (L.contentLogicalRight +
            (if it1.isWordSeparator then it1.box.style.wordSpacing else 0)) w1],
          contentLogicalWidth :=
            max L.contentLogicalWidth ((L.contentLogicalRight +
              (if it1.isWordSeparator then it1.box.style.wordSpacing else 0)) + w1),
          trimmableTrailingContent :=
            L.trimmableTrailingContent.addFullyTrimmableContent L.runs.length
              (max L.contentLogicalWidth ((L.contentLogicalRight +
                (if it1.isWordSeparator then it1.box.style.wordSpacing else 0)) + w1)
                - L.contentLogicalWidth) } := by
    have hlast : L.runs.getLast? = some lr := by
      rw [hruns]
      exact List.getLast?_concat _
    have he : it1.isEmptyContent = false := by
      unfold InlineTextItem.isEmptyContent
      have : it1.length ≠ 0 := by omega
      simp [this]
    have hc : L.willCollapseCompletely it1 = false := by
      unfold Line.willCollapseCompletely
      rw [if_neg (by rw [he]; exact Bool.false_ne_true)]
      rw [hws, hp]
      have hrev : L.runs.reverse = lr :: M.reverse := by rw [hruns]; simp
      simp [hrev, Line.collapseScan, Run.isBox_eq_false_of_isText hlt, hlt, hlc]
    unfold Line.appendTextContent
    rw [if_neg (by rw [hc]; exact Bool.false_ne_true)]
    dsimp only
    rw [hlast]
    dsimp only
    rw [if_pos hbox]
    rw [if_pos rfl]
    rw [if_pos (by rw [hws, hp]; rfl : (it1.isWhitespace
      && !shouldPreserveSpacesAndTabs it1) = true)]
    simp [List.length_append]
  have h2 : ∀ (ps : List (InlineTextItem × ℤ)) (M' : Line),
      (∀ p ∈ ps, p.1.isWhitespace = true ∧ shouldPreserveSpacesAndTabs p.1 = false) →
      M'.runs = L.runs ++ [Run.ofTextItem it1 (L.contentLogicalRight +
        (if it1.isWordSeparator then it1.box.style.wordSpacing else 0)) w1] →
      appendTextItems cfg M' ps = M' := by
    intro ps
    induction ps with
    | nil => intro M' _ _; rfl
    | cons p ptail ih =>
      intro M' hall hM
      have hcoll : (Run.ofTextItem it1 (L.contentLogicalRight +
          (if it1.isWordSeparator then it1.box.style.wordSpacing else 0))
            w1).hasCollapsibleTrailingWhitespace = true := by
        unfold Run.hasCollapsibleTrailingWhitespace Run.ofTextItem
        dsimp only
        rw [hT]
        by_cases h1 : it1.length = 1 <;> simp [h1]
      have hstep : M'.appendTextContent cfg p.1 p.2 = M' :=
        appendTextContent_collapse_after_ws cfg M' p.1 p.2 L.runs
          (Run.ofTextItem it1 (L.contentLogicalRight +
            (if it1.isWordSeparator then it1.box.style.wordSpacing else 0)) w1)
          hM rfl hcoll
          (hall p (List.mem_cons_self p ptail)).1
          (hall p (List.mem_cons_self p ptail)).2
      show appendTextItems cfg (M'.appendTextContent cfg p.1 p.2) ptail = M'
      rw [hstep]
      exact ih M' (fun q hq => hall q (List.mem_cons_of_mem _ hq)) hM
  refine ⟨?_, hT, ?_, rfl⟩
  · show appendTextItems cfg (L.appendTextContent cfg it1 w1) rest = _
    rw [h1]
    exact h2 rest _ hrest rfl
  · unfold Run.ofTextItem
    dsimp only
    rw [hT]
    by_cases h1 : it1.length = 1
    · simp [h1]
    · simp [h1]

/-- C1 witness: two whitespace items — a word-separator "  " of width 4 on a
box with word-spacing 5, then " " of width 5 — appended after a text run of
another box yield exactly one new `Collapsed` run of width 4 spanning a single
logical text unit, placed at content-right 10 shifted by the word-spacing. -/
theorem c1_witness :
    appendTextItems baseConfig exLineText0
        ((itemWsSep boxWS 2, 4) :: [(itemWs box1 1, 5)])
      = { exLineText0 with
          runs := exLineText0.runs
            ++ [Run.ofTextItem (itemWsSep boxWS 2) (exLineText0.contentLogicalRight +
              (if (itemWsSep boxWS 2).isWordSeparator
                then (itemWsSep boxWS 2).box.style.wordSpacing else 0)) 4],
          contentLogicalWidth := max exLineText0.contentLogicalWidth
            ((exLineText0.contentLogicalRight +
              (if (itemWsSep boxWS 2).isWordSeparator
                then (itemWsSep boxWS 2).box.style.wordSpacing else 0)) + 4),
          trimmableTrailingContent :=
            exLineText0.trimmableTrailingContent.addFullyTrimmableContent
              exLineText0.runs.length
              (max exLineText0.contentLogicalWidth
                ((exLineText0.contentLogicalRight +
                  (if (itemWsSep boxWS 2).isWordSeparator
                    then (itemWsSep boxWS 2).box.style.wordSpacing else 0)) + 4)
                - exLineText0.contentLogicalWidth) }
    ∧ (Run.ofTextItem (itemWsSep boxWS 2) (exLineText0.contentLogicalRight +
        (if (itemWsSep boxWS 2).isWordSeparator
          then (itemWsSep boxWS 2).box.style.wordSpacing else 0))
          4).trailingWhitespaceType
        = (if (itemWsSep boxWS 2).length = 1 then TrailingWhitespace.collapsible
           else TrailingWhitespace.collapsed)
    ∧ (Run.ofTextItem (itemWsSep boxWS 2) (exLineText0.contentLogicalRight +
        (if (itemWsSep boxWS 2).isWordSeparator
          then (itemWsSep boxWS 2).box.style.wordSpacing else 0))
          4).textContent
        = some ⟨(itemWsSep boxWS 2).start, 1⟩
    ∧ (Run.ofTextItem (itemWsSep boxWS 2) (exLineText0.contentLogicalRight +
        (if (itemWsSep boxWS 2).isWordSeparator
          then (itemWsSep boxWS 2).box.style.wordSpacing else 0))
          4).logicalWidth = 4 :=
  c1_consecutive_whitespace_single_run baseConfig exLineText0
    [] (Run.ofTextItem (itemText box0 2) 0 10) (itemWsSep boxWS 2) 4
    [(itemWs box1 1, 5)] (by decide) (by decide) (by decide) (by decide)
    (by decide) (by decide) (by decide) (by decide)

/-! C3 and C4: lemmas about the justification pass. -/

theorem expStep_opps_length (oracle : Oracle) (d : ExpData) (r : Run) :
    (expStep oracle d r).opps.length = d.opps.length + 1 := by
  unfold expStep
  dsimp only
  rw [List.length_append]
  rfl

theorem expStep_behaviors_length (oracle : Oracle) (d : ExpData) (r : Run) :
    (expStep oracle d r).behaviors.length = d.behaviors.length + 1 := by
  unfold expStep
  dsimp only
  rw [List.length_append]
  rfl

theorem expPass_go_lengths (oracle : Oracle) : ∀ (runs : List Run) (init : ExpData),
    ((runs.foldl (expStep oracle) init).opps.length = init.opps.length + runs.length)
    ∧ ((runs.foldl (expStep oracle) init).behaviors.length
        = init.behaviors.length + runs.length)
  | [], init => by simp
  | r :: rs, init => by
    have ih := expPass_go_lengths oracle rs (expStep oracle init r)
    rw [List.foldl_cons]
    constructor
    · rw [ih.1, expStep_opps_length, List.length_cons]
      omega
    · rw [ih.2, expStep_behaviors_length, List.length_cons]
      omega

theorem expPass_go_total (oracle : Oracle) : ∀ (runs : List Run) (init : ExpData),
    init.total = init.opps.sum →
    (runs.foldl (expStep oracle) init).total = (runs.foldl (expStep oracle) init).opps.sum
  | [], _ => fun h => h
  | r :: rs, init => fun h => by
    rw [List.foldl_cons]
    apply expPass_go_total oracle rs
    unfold expStep
    dsimp only
    rw [List.sum_append, h]
    simp

theorem natList_getD_le_sum : ∀ (l : List ℕ) (i : ℕ), l.getD i 0 ≤ l.sum
  | [], i => by simp
  | a :: l, 0 => by simp
  | a :: l, i + 1 => by
    have := natList_getD_le_sum l i
    simp only [List.getD_cons_succ, List.sum_cons]
    omega

theorem natList_sum_set_sub_one : ∀ (l : List ℕ) (i : ℕ), l.getD i 0 ≠ 0 →
    (l.set i (l.getD i 0 - 1)).sum = l.sum - 1
  | [], i, h => absurd (by simp) h
  | a :: l, 0, h => by
    simp only [List.getD_cons_zero] at h ⊢
    simp only [List.set, List.sum_cons]
    omega
  | a :: l, i + 1, h => by
    simp only [List.getD_cons_succ] at h ⊢
    have ih := natList_sum_set_sub_one l i h
    have hle := natList_getD_le_sum l i
    simp only [List.set, List.sum_cons]
    rw [ih]
    omega

theorem list_getD_set_self {α : Type} (d : α) : ∀ (l : List α) (i : ℕ) (v : α),
    i < l.length → (l.set i v).getD i d = v
  | [], i, v, h => absurd h (by simp)
  | a :: l, 0, v, _ => rfl
  | a :: l, i + 1, v, h => by
    simp only [List.set]
    rw [List.getD_cons_succ]
    exact list_getD_set_self d l i v (by simpa using h)

theorem natList_lt_length_of_getD_ne : ∀ (l : List ℕ) (i : ℕ),
    l.getD i 0 ≠ 0 → i < l.length
  | [], _, h => absurd (by simp) h
  | _ :: _, 0, _ => Nat.succ_pos _
  | _ :: l, i + 1, h =>
    Nat.succ_lt_succ (natList_lt_length_of_getD_ne l i
      (by simpa [List.getD_cons_succ] using h))

theorem expFixup_total_sum (d : ExpData) (h : d.total = d.opps.sum) :
    (expFixup d).total = (expFixup d).opps.sum := by
  unfold expFixup
  cases hl : d.lastContent with
  | none => exact h
  | some i =>
    dsimp only
    split
    next hne =>
      split
      next =>
        dsimp only
        rw [natList_sum_set_sub_one d.opps i hne, h]
      next => exact h
    next => exact h

theorem expFixup_opps_length (d : ExpData) : (expFixup d).opps.length = d.opps.length := by
  unfold expFixup
  cases hl : d.lastContent with
  | none => rfl
  | some i =>
    dsimp only
    split
    · split
      · dsimp only
        rw [List.length_set]
      · rfl
    · rfl

theorem distRuns_acc (per : ℤ) : ∀ (runs : List Run) (o : List ℕ)
    (b : List ExpansionBehavior) (acc : ℤ), o.length = runs.length →
    (distRuns per runs o b acc).2 = acc + per * (o.sum : ℤ)
  | [], o, b, acc, h => by
    have ho : o = [] := List.eq_nil_of_length_eq_zero (by rw [h]; rfl)
    subst ho
    simp [distRuns]
  | r :: rs, o, b, acc, h => by
    match o, h with
    | oh :: ot, h =>
      have ih := distRuns_acc per rs ot b.tail (acc + per * ((oh : ℕ) : ℤ))
        (by simpa using h)
      unfold distRuns
      dsimp only
      rw [List.headD_cons, List.tail_cons]
      rw [ih]
      push_cast [List.sum_cons]
      ring

theorem distRuns_getD_expansionBehavior (per : ℤ) : ∀ (runs : List Run) (o : List ℕ)
    (b : List ExpansionBehavior) (acc : ℤ) (i : ℕ), i < runs.length →
    ((distRuns per runs o b acc).1.getD i dummyRun).expansionBehavior
      = b.getD i DefaultExpansion
  | [], _, _, _, i, h => absurd h (by simp)
  | r :: rs, o, b, acc, 0, _ => by cases b <;> rfl
  | r :: rs, o, b, acc, i + 1, h => by
    have ih := distRuns_getD_expansionBehavior per rs o.tail b.tail
      (acc + per * ((o.headD 0 : ℕ) : ℤ)) i (by simpa using h)
    unfold distRuns
    dsimp only
    rw [List.getD_cons_succ, ih]
    cases b <;> rfl

/-- C3: `applyRunExpansion(E)` leaves `contentLogicalWidth` unchanged whenever
the total expansion-opportunity count is zero, and, on a non-empty line not
ending in a line break with a nonzero opportunity count, grows
`contentLogicalWidth` by exactly `E` when `E` is evenly divisible by the total
opportunity count (each opportunity receiving `E / total` of width). -/
theorem c3_expansion_conserves_width (oracle : Oracle) (L : Line) (E : ℤ) :
    (L.totalExpansionOpportunities oracle = 0 →
      (L.applyRunExpansion oracle E).contentLogicalWidth = L.contentLogicalWidth)
    ∧ (L.runs ≠ [] →
       (L.runs.getLast?.map Run.isLineBreak).getD false = false →
       L.totalExpansionOpportunities oracle ≠ 0 →
       ((L.totalExpansionOpportunities oracle : ℤ)) ∣ E →
      (L.applyRunExpansion oracle E).contentLogicalWidth
        = L.contentLogicalWidth + E) := by
  constructor
  · intro h0
    unfold Line.totalExpansionOpportunities at h0
    unfold Line.applyRunExpansion
    split
    · rfl
    · split
      · rfl
      · dsimp only
        rw [if_pos h0]
  · intro hne hnb hT hdvd
    unfold Line.totalExpansionOpportunities at hT hdvd
    unfold Line.applyRunExpansion
    have h1 : L.runs.isEmpty = false := by
      rw [Bool.eq_false_iff]
      intro hh
      exact hne (List.isEmpty_iff.mp hh)
    rw [if_neg (by rw [h1, hnb]; exact Bool.false_ne_true ∘ id :
      ¬(L.runs.isEmpty || (L.runs.getLast?.map Run.isLineBreak).getD false) = true)]
    by_cases hE : E = 0
    · rw [if_pos hE, hE, add_zero]
    · rw [if_neg hE]
      dsimp only
      rw [if_neg hT]
      dsimp only
      have hlen : (expFixup (expPass oracle L.runs)).opps.length = L.runs.length := by
        rw [expFixup_opps_length]
        have := (expPass_go_lengths oracle L.runs ⟨[], [], 0, Option.none, true⟩).1
        simpa using this
      rw [distRuns_acc _ L.runs _ _ 0 hlen]
      have hsum : ((expFixup (expPass oracle L.runs)).opps.sum : ℤ)
          = ((expFixup (expPass oracle L.runs)).total : ℤ) := by
        rw [expFixup_total_sum (expPass oracle L.runs)
          (expPass_go_total oracle L.runs ⟨[], [], 0, Option.none, true⟩ rfl)]
      rw [hsum, zero_add, Int.ediv_mul_cancel hdvd]

/-- C3 witness: one expansion opportunity, extra space 6 (divisible by 1):
content width grows from 10 to 16. -/
theorem c3_witness :
    (exJustifyLine.applyRunExpansion oracleA 6).contentLogicalWidth
      = exJustifyLine.contentLogicalWidth + 6 :=
  (c3_expansion_conserves_width oracleA exJustifyLine 6).2 (by decide) (by decide)
    (by decide) ⟨6, by decide⟩

/-! C4. -/

/-- C4 counterexample: the last content-bearing run does not always end up
with right-expansion forbidden. On a line of two text runs where the oracle
grants the trailing run zero opportunities (and the leading run one), the
fix-up is skipped and after distribution the trailing run's stored expansion
behavior still allows right expansion. -/
theorem c4_counterexample :
    (expPass oracleA exJustifyLine.runs).lastContent = some 1
    ∧ ((exJustifyLine.applyRunExpansion oracleA 5).runs.getD 1 dummyRun).isText = true
    ∧ ((exJustifyLine.applyRunExpansion oracleA 5).runs.getD 1
        dummyRun).expansionBehavior.right = ExpAllow.allow := by
  refine ⟨by decide, by decide, by decide⟩

/-- C4 (amended): when the last content-bearing run's own opportunity count is
nonzero, the fix-up forbids its right expansion (keeping only its leading
expansion bits) — and when the pass additionally ended right after an
expansion point, one opportunity is subtracted from both that run's count and
the line total (otherwise both counts are unchanged); when distribution then
happens, the forbidden-right behavior is what gets stored on that run. -/
theorem c4_last_content_run_fixup (oracle : Oracle) (L : Line) (E : ℤ) (i : ℕ)
    (hlast : (expPass oracle L.runs).lastContent = some i)
    (hops : (expPass oracle L.runs).opps.getD i 0 ≠ 0) :
    ((expFixup (expPass oracle L.runs)).behaviors.getD i DefaultExpansion).right
        = ExpAllow.forbid
    ∧ ((expPass oracle L.runs).after = true →
        (expFixup (expPass oracle L.runs)).total = (expPass oracle L.runs).total - 1
        ∧ (expFixup (expPass oracle L.runs)).opps.getD i 0
            = (expPass oracle L.runs).opps.getD i 0 - 1)
    ∧ ((expPass oracle L.runs).after = false →
        (expFixup (expPass oracle L.runs)).total = (expPass oracle L.runs).total
        ∧ (expFixup (expPass oracle L.runs)).opps = (expPass oracle L.runs).opps)
    ∧ (L.runs ≠ [] → (L.runs.getLast?.map Run.isLineBreak).getD false = false →
       E ≠ 0 → (expFixup (expPass oracle L.runs)).total ≠ 0 →
        ((L.applyRunExpansion oracle E).runs.getD i dummyRun).expansionBehavior
          = (expFixup (expPass oracle L.runs)).behaviors.getD i DefaultExpansion) := by
  have hiop : i < (expPass oracle L.runs).opps.length :=
    natList_lt_length_of_getD_ne _ i hops
  have hleno : (expPass oracle L.runs).opps.length = L.runs.length := by
    have := (expPass_go_lengths oracle L.runs ⟨[], [], 0, Option.none, true⟩).1
    simpa [expPass] using this
  have hlenb : (expPass oracle L.runs).behaviors.length = L.runs.length := by
    have := (expPass_go_lengths oracle L.runs ⟨[], [], 0, Option.none, true⟩).2
    simpa [expPass] using this
  have hib : i < (expPass oracle L.runs).behaviors.length := by
    rw [hlenb, ← hleno]
    exact hiop
  have hfix : (expFixup (expPass oracle L.runs)).behaviors
      = (expPass oracle L.runs).behaviors.set i
        ⟨((expPass oracle L.runs).behaviors.getD i DefaultExpansion).left,
          ExpAllow.forbid⟩ := by
    unfold expFixup
    rw [hlast]
    dsimp only
    rw [if_pos hops]
    split <;> rfl
  refine ⟨?_, fun hafter => ?_, fun hafter => ?_, fun hne hnb hE hT => ?_⟩
  · rw [hfix, list_getD_set_self DefaultExpansion _ i _ hib]
  · unfold expFixup
    rw [hlast]
    dsimp only
    rw [if_pos hops, if_pos hafter]
    exact ⟨rfl, list_getD_set_self 0 _ i _ hiop⟩
  · unfold expFixup
    rw [hlast]
    dsimp only
    rw [if_pos hops, if_neg (by rw [hafter]; exact Bool.false_ne_true)]
    exact ⟨rfl, rfl⟩
  · unfold Line.applyRunExpansion
    have h1 : L.runs.isEmpty = false := by
      rw [Bool.eq_false_iff]
      intro hh
      exact hne (List.isEmpty_iff.mp hh)
    rw [if_neg (by rw [h1, hnb]; exact Bool.false_ne_true ∘ id :
      ¬(L.runs.isEmpty || (L.runs.getLast?.map Run.isLineBreak).getD false) = true)]
    rw [if_neg hE]
    dsimp only
    rw [if_neg hT]
    dsimp only
    exact distRuns_getD_expansionBehavior _ L.runs _ _ 0 i (by rw [← hleno]; exact hiop)

/-- C4 witness: on a line of two text runs where the oracle grants the
trailing `box1` run two opportunities and reports it ends right after an
expansion point, the fix-up forbids the trailing run's right expansion. -/
theorem c4_witness :
    ((expFixup (expPass oracleB exJustifyLine.runs)).behaviors.getD 1
        DefaultExpansion).right = ExpAllow.forbid :=
  (c4_last_content_run_fixup oracleB exJustifyLine 9 1 (by decide) (by decide)).1

end Layout
